import Mathlib

/-!
# Sudoku grid state machine (`sudoku.cpp`)

A shallow embedding of the class `SudokuGrid` of `sudoku.cpp`, of the free
function `symbol` and of the puzzle selection in `main`, followed by theorems
about construction, moves, undo, reset, the solved-state check and the
selection index.

Modelling conventions.

* `std::string` is `List Char`, `std::vector<std::string>` is
  `List (List Char)`.
* `int` values are `Int`; every integer the modelled code computes is far
  below the 32-bit range, so no wrap-around is modelled.
* An access outside a container is undefined behaviour in C++.  The embedding
  makes every operation return an `Option`, and `none` stands for "the C++
  code performed an out-of-range access".  Reading `s[s.size()]` of a
  `std::string` is defined (it yields the null character) and is modelled so.
-/

namespace SudokuPuzzle

/-! ## Constants -/

/-- The constant `char EMPTY_SPACE = '.'`. -/
def EMPTY_SPACE : Char := '.'

/-- The constant `int GRID_LENGTH = 9`. -/
def GRID_LENGTH : Nat := 9

/-- The constant `int BOX_LENGTH = 3`. -/
def BOX_LENGTH : Nat := 3

/-- The constant `int FULL_GRID_SIZE = GRID_LENGTH * GRID_LENGTH`. -/
def FULL_GRID_SIZE : Nat := GRID_LENGTH * GRID_LENGTH

/-! ## Container accesses -/

/-- Read access `s[i]` on a `std::string` with a non-negative index: the
character at `i` when `i < s.size()`, the null character when
`i = s.size()`, undefined beyond. -/
def strAtN (s : List Char) (i : Nat) : Option Char :=
  if i < s.length then s[i]?
  else if i = s.length then some (Char.ofNat 0)
  else none

/-- Read access `s[i]` on a `std::string` with an `int` index. -/
def strAt (s : List Char) (i : Int) : Option Char :=
  if i < 0 then none else strAtN s i.toNat

/-- Write access `s[i] = c` on a `std::string`, for a character `c` that is
not the null character: defined only when `0 <= i < s.size()`. -/
def strSet (s : List Char) (i : Int) (c : Char) : Option (List Char) :=
  if i < 0 then none
  else if i.toNat < s.length then some (s.set i.toNat c)
  else none

/-- Access `v[i]` on a `std::vector`: defined only when `0 <= i < v.size()`. -/
def vecAt {α : Type} (v : List α) (i : Int) : Option α :=
  if i < 0 then none else v[i.toNat]?

/-- The expression `grid[y][x]` read as a value. -/
def cellAt (grid : List (List Char)) (y x : Int) : Option Char :=
  match vecAt grid y with
  | none => none
  | some rowStr => strAt rowStr x

/-- The assignment `grid[y][x] = c`. -/
def cellSet (grid : List (List Char)) (y x : Int) (c : Char) :
    Option (List (List Char)) :=
  match vecAt grid y with
  | none => none
  | some rowStr =>
    match strSet rowStr x c with
    | none => none
    | some newRow => some (grid.set y.toNat newRow)

/-- Run a fallible read on every element of a list, in order; the result is
`none` as soon as one read is out of range. -/
def collect {α β : Type} (f : α → Option β) : List α → Option (List β)
  | [] => some []
  | a :: rest =>
    match f a with
    | none => none
    | some b =>
      match collect f rest with
      | none => none
      | some bs => some (b :: bs)

/-! ## The class `SudokuGrid` -/

/-- The data members of `class SudokuGrid`. -/
structure SudokuGrid where
  grid : List (List Char)
  moves : List (List Char)
  originalSetup : List Char
  deriving DecidableEq, Repr

/-- The inner loop shared by the constructor and `resetGrid`: starting at
index `i`, push `setup[i]`, ..., `setup[i + GRID_LENGTH - 1]` onto a fresh
string. -/
def buildRow (setup : List Char) (i : Nat) : Option (List Char) :=
  collect (fun j => strAt setup ((i + j : Nat) : Int)) (List.range GRID_LENGTH)

/-- The outer loop shared by the constructor and `resetGrid`: `i` runs over
`0, 9, ..., 72` (it is advanced nine times by the inner loop) and each pass
pushes one row. -/
def buildGrid (setup : List Char) : Option (List (List Char)) :=
  collect (fun r => buildRow setup (r * GRID_LENGTH)) (List.range GRID_LENGTH)

/-- The constructor `SudokuGrid::SudokuGrid(string setup)`. -/
def construct (setup : List Char) : Option SudokuGrid :=
  match buildGrid setup with
  | none => none
  | some g => some { grid := g, moves := [], originalSetup := setup }

/-- The order `std::sort` uses on characters: comparison of character codes. -/
def charLe (a b : Char) : Prop := a.toNat ≤ b.toNat

instance : DecidableRel charLe := fun a b => inferInstanceAs (Decidable (a.toNat ≤ b.toNat))

/-- The library call `std::sort(numbers.begin(), numbers.end())` on a string:
the characters in non-decreasing order of their codes. -/
def sortChars (numbers : List Char) : List Char :=
  List.insertionSort charLe numbers

/-- The method `SudokuGrid::_isCompleteSetOfNumbers`. -/
def _isCompleteSetOfNumbers (numbers : List Char) : Bool :=
  sortChars numbers == ['1', '2', '3', '4', '5', '6', '7', '8', '9']

/-- The cells `grid[row][x]`, `x = 0..8`, read by the first loop of
`isSolved`, as (first index, second index) pairs. -/
def rowCells (row : Nat) : List (Nat × Nat) :=
  (List.range GRID_LENGTH).map (fun x => (row, x))

/-- The cells `grid[y][column]`, `y = 0..8`, read by the second loop. -/
def columnCells (column : Nat) : List (Nat × Nat) :=
  (List.range GRID_LENGTH).map (fun y => (y, column))

/-- The cells `grid[boxx + x][boxy + y]`, `x, y = 0..2` with `y` innermost,
read by the third loop. -/
def boxCells (boxx boxy : Nat) : List (Nat × Nat) :=
  (List.range BOX_LENGTH).flatMap
    (fun x => (List.range BOX_LENGTH).map (fun y => (boxx + x, boxy + y)))

/-- The values `0, 3, 6` of `boxx` and `boxy`. -/
def boxStarts : List Nat := [0, 3, 6]

/-- All groups of cells `isSolved` examines, in the order of the source:
rows, then columns, then boxes (`boxx` outer, `boxy` inner). -/
def allUnits : List (List (Nat × Nat)) :=
  (List.range GRID_LENGTH).map rowCells
    ++ (List.range GRID_LENGTH).map columnCells
    ++ boxStarts.flatMap (fun boxx => boxStarts.map (fun boxy => boxCells boxx boxy))

/-- Collect the characters of one group of cells into a string. -/
def readCells (grid : List (List Char)) (cells : List (Nat × Nat)) :
    Option (List Char) :=
  collect (fun p => cellAt grid (p.1 : Int) (p.2 : Int)) cells

/-- The loops of `isSolved` over a list of groups: a group that is not a
complete set of numbers returns `false` at once, without reading the
remaining groups. -/
def checkUnits (grid : List (List Char)) : List (List (Nat × Nat)) → Option Bool
  | [] => some true
  | cells :: rest =>
    match readCells grid cells with
    | none => none
    | some numbers =>
      if _isCompleteSetOfNumbers numbers then checkUnits grid rest else some false

/-- The method `SudokuGrid::isSolved`. -/
def isSolved (b : SudokuGrid) : Option Bool :=
  checkUnits b.grid allUnits

/-- The function `int symbol(char c)`. -/
def symbol (c : Char) : Int :=
  if c = 'A' then 0
  else if c = 'B' then 1
  else if c = 'C' then 2
  else if c = 'D' then 3
  else if c = 'E' then 4
  else if c = 'F' then 5
  else if c = 'G' then 6
  else if c = 'H' then 7
  else if c = 'I' then 8
  else -1

/-- The library call `std::to_string(int)`: the decimal digits, with a
leading minus sign for a negative value. -/
def to_string (n : Int) : List Char :=
  if n < 0 then '-' :: Nat.toDigits 10 n.natAbs else Nat.toDigits 10 n.toNat

/-- The integer value of a `char` in an arithmetic expression (characters
are taken in the ASCII range, where the value is the character code). -/
def charCode (c : Char) : Int := (c.toNat : Int)

/-- The string `column + to_string(row) + to_string(number)` that `makeMove`
pushes onto `moves`.  The argument `number` is a `char`, so the overload
chosen for it is `to_string(int)`: the entry ends with the decimal character
code of the digit (`"53"` for `'5'`). -/
def moveEntry (column : Char) (row : Int) (number : Char) : List Char :=
  column :: (to_string row ++ to_string (charCode number))

/-- The method `SudokuGrid::makeMove`: the returned flag and the state
after the call. -/
def makeMove (b : SudokuGrid) (column : Char) (row : Int) (number : Char) :
    Option (Bool × SudokuGrid) :=
  let x := symbol column
  let y := row - 1
  match cellAt b.grid y x with
  | none => none
  | some c =>
    if c ≠ EMPTY_SPACE then some (false, b)
    else
      match cellSet b.grid y x number with
      | none => none
      | some g =>
        some (true, { b with grid := g, moves := b.moves ++ [moveEntry column row number] })

/-- The method `SudokuGrid::resetGrid`. -/
def resetGrid (b : SudokuGrid) : Option SudokuGrid :=
  match buildGrid b.originalSetup with
  | none => none
  | some g => some { b with grid := g }

/-- The method `SudokuGrid::undo`. -/
def undo (b : SudokuGrid) : Option SudokuGrid :=
  match b.moves.getLast? with
  | none => some b
  | some move =>
    let popped : SudokuGrid := { b with moves := b.moves.dropLast }
    match (if popped.moves.isEmpty then resetGrid popped else some popped) with
    | none => none
    | some b1 =>
      match strAt move 0, strAt move 1 with
      | some one, some two =>
        let x := symbol one
        let y := (charCode two - charCode '0') - 1
        match cellSet b1.grid y x '.' with
        | none => none
        | some g => some { b1 with grid := g }
      | _, _ => none

/-! ## Predicates, reachable boards and sample data used by the theorems -/

/-- A grid of exactly 9 rows of exactly 9 characters. -/
def Grid9 (g : List (List Char)) : Prop :=
  g.length = 9 ∧ ∀ rowStr ∈ g, rowStr.length = 9

instance (g : List (List Char)) : Decidable (Grid9 g) := by
  unfold Grid9; infer_instance

/-- The digits `'1'..'9'`. -/
def digits : List Char := ['1', '2', '3', '4', '5', '6', '7', '8', '9']

/-- The column letters `'A'..'I'`. -/
def columnLetters : List Char := ['A', 'B', 'C', 'D', 'E', 'F', 'G', 'H', 'I']

/-- The solved condition in the words of the specification: every row, every
column and every aligned 3x3 box holds each digit `'1'..'9'` at exactly one
of its positions. -/
def SolvedSpec (g : List (List Char)) : Prop :=
  (∀ i, i < 9 → ∀ d ∈ digits,
      ∃! p : Nat × Nat, (p.1 = i ∧ p.2 < 9) ∧ cellAt g (p.1 : Int) (p.2 : Int) = some d) ∧
  (∀ j, j < 9 → ∀ d ∈ digits,
      ∃! p : Nat × Nat, (p.1 < 9 ∧ p.2 = j) ∧ cellAt g (p.1 : Int) (p.2 : Int) = some d) ∧
  (∀ i, i < 3 → ∀ j, j < 3 → ∀ d ∈ digits,
      ∃! p : Nat × Nat, (3 * i ≤ p.1 ∧ p.1 < 3 * i + 3 ∧ 3 * j ≤ p.2 ∧ p.2 < 3 * j + 3) ∧
        cellAt g (p.1 : Int) (p.2 : Int) = some d)

instance : IsTotal Char charLe := ⟨fun a b => Nat.le_total a.toNat b.toNat⟩

instance : IsTrans Char charLe := ⟨fun _ _ _ h1 h2 => Nat.le_trans h1 h2⟩

instance : IsAntisymm Char charLe :=
  ⟨fun _ _ h1 h2 => Char.ext (UInt32.ext (Nat.le_antisymm h1 h2))⟩

/-- The boards reachable from `Construct(s)` by calls of `makeMove` (column
`A`-`I`, row 1-9, digit `'1'`-`'9'`), `undo` and `resetGrid`. -/
inductive Reachable (s : List Char) : SudokuGrid → Prop
  | init {b : SudokuGrid} : construct s = some b → Reachable s b
  | byMove {b b2 : SudokuGrid} {column : Char} {row : Int} {number : Char} {ok : Bool} :
      Reachable s b → column ∈ columnLetters → 1 ≤ row → row ≤ 9 → number ∈ digits →
      makeMove b column row number = some (ok, b2) → Reachable s b2
  | byUndo {b b2 : SudokuGrid} : Reachable s b → undo b = some b2 → Reachable s b2
  | byReset {b b2 : SudokuGrid} : Reachable s b → resetGrid b = some b2 → Reachable s b2

/-- The invariant of the boards reachable from `Construct(s)`. -/
structure Inv (s : List Char) (b : SudokuGrid) : Prop where
  setup : b.originalSetup = s
  grid9 : Grid9 b.grid
  givens : ∀ r c : Nat, r < 9 → c < 9 → s[r * 9 + c]? ≠ some EMPTY_SPACE →
    cellAt b.grid (r : Int) (c : Int) = s[r * 9 + c]?
  entries : ∀ e ∈ b.moves, ∃ (column : Char) (r k : Nat) (number : Char),
    r < 9 ∧ k < 9 ∧ symbol column = (k : Int) ∧
      e = moveEntry column ((r : Int) + 1) number ∧ s[r * 9 + k]? = some EMPTY_SPACE
  pristine : b.moves = [] →
    ∀ r c : Nat, r < 9 → c < 9 → cellAt b.grid (r : Int) (c : Int) = s[r * 9 + c]?

/-- The first sample puzzle quoted in the comments of `sudoku.cpp`. -/
def samplePuzzle : List Char :=
  "..3.2.6..9..3.5..1..18.64....81.29..7.......8..67.82....26.95..8..2.3..9..5.1.3..".toList

/-- The board constructed from `samplePuzzle`. -/
def sampleStart : SudokuGrid :=
  (construct samplePuzzle).getD ⟨[], [], []⟩

/-- The board after the move `A1 5` on `sampleStart`. -/
def sampleAfterMove : SudokuGrid :=
  ((makeMove sampleStart 'A' 1 '5').getD (false, sampleStart)).2

/-- The solved grid shown in the introduction text of `main`. -/
def solvedBoard : SudokuGrid :=
  (construct
    "534678912672195348198342567859761423426853791713924856961537284287419635345286179".toList).getD
    ⟨[], [], []⟩

/-- The board after `undo` on `sampleAfterMove`. -/
def sampleAfterUndo : SudokuGrid :=
  (undo sampleAfterMove).getD sampleAfterMove

/-- Call `undo` a number of times in a row. -/
def undoTimes : Nat → SudokuGrid → Option SudokuGrid
  | 0, b => some b
  | n + 1, b =>
    match undo b with
    | none => none
    | some b2 => undoTimes n b2

/-- The solved grid of the specification, as the concatenation of its nine
rows. -/
def canonicalSolved : List Char :=
  ("534678912" ++ "672195348" ++ "198342567" ++ "859761423" ++ "426853791"
    ++ "713924856" ++ "961537284" ++ "287419635" ++ "345286179").toList

/-- The values an object `std::uniform_int_distribution<int>(a, b)` can
produce (library): every integer of the closed interval from `a` to `b`. -/
def uniformIntValues (a b : Int) : List Int :=
  (List.range (b - a + 1).toNat).map (fun i : Nat => a + (i : Int))

/-- The values `random_number` can take in `main`, at start-up and on the
`NEW` command: the loading loop leaves the number of lines in the counter
(called `end` in the source), and both places draw from
`distribution(0, end)`. -/
def drawableIndices (puzzleFile : List (List Char)) : List Int :=
  uniformIntValues 0 (puzzleFile.length : Int)

/-- The expression `puzzleFile[random_number]` of `main`. -/
def selectPuzzle (puzzleFile : List (List Char)) (random_number : Int) :
    Option (List Char) :=
  vecAt puzzleFile random_number

/-! ## Well-formed grids and basic facts about the container accesses -/

theorem strAt_natCast (s : List Char) (i : Nat) : strAt s (i : Int) = strAtN s i := by
  simp [strAt]

theorem strAtN_of_lt {s : List Char} {i : Nat} (h : i < s.length) :
    strAtN s i = s[i]? := by
  simp [strAtN, h]

theorem vecAt_natCast {α : Type} (v : List α) (i : Nat) : vecAt v (i : Int) = v[i]? := by
  simp [vecAt]

theorem cellAt_natCast (g : List (List Char)) (r c : Nat) :
    cellAt g (r : Int) (c : Int) = (g[r]?).bind (fun rowStr => strAtN rowStr c) := by
  unfold cellAt
  rw [vecAt_natCast]
  cases g[r]? <;> simp [strAt_natCast]

theorem cellAt_of_grid9 {g : List (List Char)} (hg : Grid9 g) {r c : Nat} (hc : c < 9) :
    cellAt g (r : Int) (c : Int) = (g[r]?).bind (fun rowStr => rowStr[c]?) := by
  rw [cellAt_natCast]
  cases h : g[r]? with
  | none => rfl
  | some rowStr =>
    have hm : rowStr ∈ g := List.getElem?_mem h
    have hl := hg.2 rowStr hm
    simp [strAtN, hl, hc]

theorem cellAt_isSome {g : List (List Char)} (hg : Grid9 g) {r c : Nat} (hr : r < 9)
    (hc : c < 9) : ∃ ch, cellAt g (r : Int) (c : Int) = some ch := by
  rw [cellAt_of_grid9 hg hc]
  have hr2 : r < g.length := by rw [hg.1]; exact hr
  have hl : (g[r]).length = 9 := hg.2 _ (List.getElem_mem hr2)
  have hc2 : c < (g[r]).length := by rw [hl]; exact hc
  exact ⟨g[r][c], by simp [List.getElem?_eq_getElem hr2, List.getElem?_eq_getElem hc2]⟩

theorem cellSet_of_grid9 {g : List (List Char)} (hg : Grid9 g) {r c : Nat} (hr : r < 9)
    (hc : c < 9) (v : Char) :
    ∃ g2, cellSet g (r : Int) (c : Int) v = some g2 ∧ Grid9 g2 ∧
      cellAt g2 (r : Int) (c : Int) = some v ∧
      ∀ r2 c2 : Nat, (r2, c2) ≠ (r, c) →
        cellAt g2 (r2 : Int) (c2 : Int) = cellAt g (r2 : Int) (c2 : Int) := by
  have hr2 : r < g.length := by rw [hg.1]; exact hr
  have hl : (g[r]).length = 9 := hg.2 _ (List.getElem_mem hr2)
  have hc2 : c < (g[r]).length := by rw [hl]; exact hc
  refine ⟨g.set r ((g[r]).set c v), ?_, ?_, ?_, ?_⟩
  · have hneg : ¬ ((c : Int) < 0) := by omega
    simp [cellSet, vecAt_natCast, List.getElem?_eq_getElem hr2, strSet, hc2, hneg]
  · refine ⟨by simp [hg.1], ?_⟩
    intro rowStr hmem
    rcases List.mem_or_eq_of_mem_set hmem with h | h
    · exact hg.2 rowStr h
    · simp [h, hl]
  · rw [cellAt_natCast]
    simp [List.getElem?_set, hr2, strAtN, hc2]
  · intro r2 c2 hne
    rw [cellAt_natCast, cellAt_natCast]
    by_cases hrr : r = r2
    · subst hrr
      have hcc : c ≠ c2 := fun h => hne (by rw [h])
      simp [List.getElem?_set, hr2, strAtN, List.getElem?_eq_getElem hr2,
        List.getElem?_set_ne hcc, List.getElem_set_ne hcc]
    · simp [List.getElem?_set_ne hrr]

theorem cellAt_neg_left (g : List (List Char)) {y : Int} (x : Int) (hy : y < 0) :
    cellAt g y x = none := by
  simp [cellAt, vecAt, hy]

theorem cellAt_neg_right (g : List (List Char)) (y : Int) {x : Int} (hx : x < 0) :
    cellAt g y x = none := by
  unfold cellAt
  cases vecAt g y <;> simp [strAt, hx]

theorem frame_int {g g2 : List (List Char)} {r c : Nat}
    (h : ∀ r2 c2 : Nat, (r2, c2) ≠ (r, c) →
      cellAt g2 (r2 : Int) (c2 : Int) = cellAt g (r2 : Int) (c2 : Int)) :
    ∀ y x : Int, (y, x) ≠ ((r : Int), (c : Int)) → cellAt g2 y x = cellAt g y x := by
  intro y x hne
  rcases lt_or_le y 0 with hy | hy
  · rw [cellAt_neg_left g2 x hy, cellAt_neg_left g x hy]
  rcases lt_or_le x 0 with hx | hx
  · rw [cellAt_neg_right g2 y hx, cellAt_neg_right g y hx]
  lift y to Nat using hy
  lift x to Nat using hx
  apply h
  intro heq
  apply hne
  cases heq
  rfl

theorem symbol_of_mem {column : Char} (h : column ∈ columnLetters) :
    ∃ k : Nat, k < 9 ∧ symbol column = (k : Int) := by
  simp only [columnLetters, List.mem_cons, List.mem_singleton, List.not_mem_nil, or_false] at h
  rcases h with rfl | rfl | rfl | rfl | rfl | rfl | rfl | rfl | rfl
  · exact ⟨0, by decide, by decide⟩
  · exact ⟨1, by decide, by decide⟩
  · exact ⟨2, by decide, by decide⟩
  · exact ⟨3, by decide, by decide⟩
  · exact ⟨4, by decide, by decide⟩
  · exact ⟨5, by decide, by decide⟩
  · exact ⟨6, by decide, by decide⟩
  · exact ⟨7, by decide, by decide⟩
  · exact ⟨8, by decide, by decide⟩

theorem row_of_range {row : Int} (h1 : 1 ≤ row) (h9 : row ≤ 9) :
    ∃ r : Nat, r < 9 ∧ row = (r : Int) + 1 :=
  ⟨(row - 1).toNat, by omega, by omega⟩

theorem to_string_row (r : Nat) (hr : r < 9) :
    to_string ((r : Int) + 1) = [Char.ofNat (49 + r)] := by
  interval_cases r <;> decide

theorem rowChar_code (r : Nat) (hr : r < 9) :
    charCode (Char.ofNat (49 + r)) - charCode '0' - 1 = (r : Int) := by
  interval_cases r <;> decide

/-- The first two characters of a history entry give back the column letter
and the row, and the rest is the decimal character code of the digit. -/
theorem moveEntry_decode (column : Char) (r : Nat) (hr : r < 9) (number : Char) :
    strAt (moveEntry column ((r : Int) + 1) number) 0 = some column ∧
      (∃ two, strAt (moveEntry column ((r : Int) + 1) number) 1 = some two ∧
        charCode two - charCode '0' - 1 = (r : Int)) ∧
      (moveEntry column ((r : Int) + 1) number).drop 2 = to_string (charCode number) := by
  rw [moveEntry, to_string_row r hr]
  refine ⟨by simp [strAt, strAtN], ⟨Char.ofNat (49 + r), ?_, rowChar_code r hr⟩, by simp⟩
  simp [strAt, strAtN]

/-! ## The solved-state check -/

theorem isComplete_iff_perm (l : List Char) :
    _isCompleteSetOfNumbers l = true ↔ l.Perm digits := by
  have hs : List.Sorted charLe digits := by unfold digits; decide
  unfold _isCompleteSetOfNumbers sortChars
  rw [beq_iff_eq]
  constructor
  · intro h
    have hp := List.perm_insertionSort charLe l
    rw [h] at hp
    exact hp.symm
  · intro h
    exact List.eq_of_perm_of_sorted ((List.perm_insertionSort charLe l).trans h)
      (List.sorted_insertionSort charLe l) hs

theorem collect_eq_some {α β : Type} (f : α → Option β) :
    ∀ (l : List α) (bs : List β), collect f l = some bs ↔ l.map f = bs.map some
  | [], bs => by
    cases bs <;> simp [collect]
  | a :: rest, bs => by
    cases hfa : f a with
    | none => cases bs <;> simp [collect, hfa]
    | some b =>
      cases hr : collect f rest with
      | none =>
        have := collect_eq_some f rest
        cases bs with
        | nil => simp [collect, hfa, hr]
        | cons b2 bs2 =>
          simp only [collect, hfa, hr, List.map_cons, List.cons.injEq]
          constructor
          · intro h0
            cases h0
          · rintro ⟨_, h2⟩
            rw [← this bs2, hr] at h2
            cases h2
      | some cs =>
        have h3 := (collect_eq_some f rest cs).1 hr
        cases bs with
        | nil => simp [collect, hfa, hr]
        | cons b2 bs2 =>
          simp only [collect, hfa, hr, List.map_cons, List.cons.injEq, Option.some.injEq, h3]
          constructor
          · rintro ⟨h1, h2⟩
            exact ⟨h1, by rw [h2]⟩
          · rintro ⟨h1, h2⟩
            exact ⟨h1, List.map_injective_iff.2 (Option.some_injective β) h2⟩

theorem collect_isSome {α β : Type} (f : α → Option β) :
    ∀ (l : List α), (∀ a ∈ l, ∃ b, f a = some b) → ∃ bs, collect f l = some bs
  | [], _ => ⟨[], rfl⟩
  | a :: rest, h => by
    obtain ⟨b, hb⟩ := h a (List.mem_cons_self a rest)
    obtain ⟨bs, hbs⟩ := collect_isSome f rest (fun x hx => h x (List.mem_cons_of_mem a hx))
    exact ⟨b :: bs, by simp [collect, hb, hbs]⟩

theorem unit_complete_iff {g : List (List Char)} {cells : List (Nat × Nat)}
    (hlen : cells.length = 9) {bs : List Char}
    (h : readCells g cells = some bs) :
    _isCompleteSetOfNumbers bs = true ↔
      ∀ d ∈ digits, ∃! p : Nat × Nat, p ∈ cells ∧ cellAt g (p.1 : Int) (p.2 : Int) = some d := by
  have hmap := (collect_eq_some _ cells bs).1 h
  have hbl : bs.length = 9 := by
    have := congrArg List.length hmap
    simp only [List.length_map] at this
    omega
  rw [isComplete_iff_perm]
  constructor
  · intro hp d hd
    have hnd : bs.Nodup := hp.nodup_iff.2 (by unfold digits; decide)
    have hnd2 : (List.map some bs).Nodup := hnd.map (Option.some_injective Char)
    rw [← hmap] at hnd2
    have hinj := List.inj_on_of_nodup_map hnd2
    have hdb : some d ∈ List.map some bs := List.mem_map_of_mem some (hp.mem_iff.2 hd)
    rw [← hmap] at hdb
    obtain ⟨p, hpc, hpd⟩ := List.mem_map.1 hdb
    refine ⟨p, ⟨hpc, hpd⟩, ?_⟩
    rintro q ⟨hqc, hqd⟩
    exact hinj hqc hpc (by rw [hqd, hpd])
  · intro hall
    have hsub : digits ⊆ bs := by
      intro d hd
      obtain ⟨p, ⟨hpc, hpd⟩, _⟩ := hall d hd
      have hm : some d ∈ List.map some bs := by
        rw [← hmap, ← hpd]
        exact List.mem_map_of_mem _ hpc
      obtain ⟨e, he, hed⟩ := List.mem_map.1 hm
      cases hed
      exact he
    have hsp : digits.Subperm bs := List.subperm_of_subset (by unfold digits; decide) hsub
    exact (hsp.perm_of_length_le (by rw [hbl]; decide)).symm

theorem checkUnits_eq_true (g : List (List Char)) :
    ∀ units : List (List (Nat × Nat)),
      checkUnits g units = some true ↔
        ∀ u ∈ units, ∃ bs, readCells g u = some bs ∧ _isCompleteSetOfNumbers bs = true
  | [] => by simp [checkUnits]
  | u :: rest => by
    have ih := checkUnits_eq_true g rest
    cases hr : readCells g u with
    | none => simp [checkUnits, hr]
    | some bs =>
      by_cases hc : _isCompleteSetOfNumbers bs = true
      · simp [checkUnits, hr, hc, ih]
      · simp [checkUnits, hr, hc]

theorem checkUnits_isSome (g : List (List Char)) :
    ∀ units : List (List (Nat × Nat)),
      (∀ u ∈ units, ∃ bs, readCells g u = some bs) → ∃ r, checkUnits g units = some r
  | [], _ => ⟨true, rfl⟩
  | u :: rest, h => by
    obtain ⟨bs, hbs⟩ := h u (List.mem_cons_self u rest)
    obtain ⟨r, hr⟩ := checkUnits_isSome g rest (fun x hx => h x (List.mem_cons_of_mem u hx))
    by_cases hc : _isCompleteSetOfNumbers bs = true
    · exact ⟨r, by simp [checkUnits, hbs, hc, hr]⟩
    · exact ⟨false, by simp [checkUnits, hbs, hc]⟩

theorem allUnits_wellFormed :
    ∀ u ∈ allUnits, u.Nodup ∧ u.length = 9 ∧ ∀ p ∈ u, p.1 < 9 ∧ p.2 < 9 := by
  decide

theorem readCells_isSome {g : List (List Char)} (hg : Grid9 g) {u : List (Nat × Nat)}
    (hu : u ∈ allUnits) : ∃ bs, readCells g u = some bs := by
  apply collect_isSome
  intro p hp
  have := (allUnits_wellFormed u hu).2.2 p hp
  exact cellAt_isSome hg this.1 this.2

theorem isSolved_iff_units {b : SudokuGrid} (hg : Grid9 b.grid) :
    isSolved b = some true ↔
      ∀ u ∈ allUnits, ∀ d ∈ digits,
        ∃! p : Nat × Nat, p ∈ u ∧ cellAt b.grid (p.1 : Int) (p.2 : Int) = some d := by
  unfold isSolved
  rw [checkUnits_eq_true]
  constructor
  · intro h u hu
    obtain ⟨bs, hbs, hc⟩ := h u hu
    have hw := allUnits_wellFormed u hu
    exact (unit_complete_iff hw.2.1 hbs).1 hc
  · intro h u hu
    obtain ⟨bs, hbs⟩ := readCells_isSome hg hu
    have hw := allUnits_wellFormed u hu
    exact ⟨bs, hbs, (unit_complete_iff hw.2.1 hbs).2 (h u hu)⟩

theorem mem_rowCells (i : Nat) (p : Nat × Nat) : p ∈ rowCells i ↔ (p.1 = i ∧ p.2 < 9) := by
  rcases p with ⟨a, b⟩
  simp only [rowCells, GRID_LENGTH, List.mem_map, List.mem_range, Prod.mk.injEq]
  constructor
  · rintro ⟨x, hx, h1, h2⟩
    omega
  · rintro ⟨h1, h2⟩
    exact ⟨b, h2, h1.symm, rfl⟩

theorem mem_columnCells (j : Nat) (p : Nat × Nat) :
    p ∈ columnCells j ↔ (p.1 < 9 ∧ p.2 = j) := by
  rcases p with ⟨a, b⟩
  simp only [columnCells, GRID_LENGTH, List.mem_map, List.mem_range, Prod.mk.injEq]
  constructor
  · rintro ⟨x, hx, h1, h2⟩
    omega
  · rintro ⟨h1, h2⟩
    exact ⟨a, h1, rfl, h2.symm⟩

theorem mem_boxCells (bx by2 : Nat) (p : Nat × Nat) :
    p ∈ boxCells bx by2 ↔ (bx ≤ p.1 ∧ p.1 < bx + 3 ∧ by2 ≤ p.2 ∧ p.2 < by2 + 3) := by
  rcases p with ⟨a, b⟩
  simp only [boxCells, BOX_LENGTH, List.mem_flatMap, List.mem_map, List.mem_range,
    Prod.mk.injEq]
  constructor
  · rintro ⟨x, hx, y, hy, h1, h2⟩
    omega
  · rintro ⟨h1, h2, h3, h4⟩
    exact ⟨a - bx, by omega, b - by2, by omega, by omega, by omega⟩

theorem mem_allUnits (u : List (Nat × Nat)) :
    u ∈ allUnits ↔
      (∃ i, i < 9 ∧ u = rowCells i) ∨ (∃ j, j < 9 ∧ u = columnCells j) ∨
        (∃ i, i < 3 ∧ ∃ j, j < 3 ∧ u = boxCells (3 * i) (3 * j)) := by
  simp only [allUnits, boxStarts, GRID_LENGTH, List.mem_append, List.mem_map, List.mem_range,
    List.mem_flatMap, List.mem_cons, List.mem_singleton, List.not_mem_nil, or_false]
  constructor
  · rintro ((⟨i, hi, rfl⟩ | ⟨j, hj, rfl⟩) | ⟨bx, hbx, by2, hby, rfl⟩)
    · exact Or.inl ⟨i, hi, rfl⟩
    · exact Or.inr (Or.inl ⟨j, hj, rfl⟩)
    · refine Or.inr (Or.inr ⟨bx / 3, by omega, by2 / 3, by omega, ?_⟩)
      rcases hbx with rfl | rfl | rfl <;> rcases hby with rfl | rfl | rfl <;> rfl
  · rintro (⟨i, hi, rfl⟩ | ⟨j, hj, rfl⟩ | ⟨i, hi, j, hj, rfl⟩)
    · exact Or.inl (Or.inl ⟨i, hi, rfl⟩)
    · exact Or.inl (Or.inr ⟨j, hj, rfl⟩)
    · exact Or.inr ⟨3 * i, by omega, 3 * j, by omega, rfl⟩

/-- C1: on a 9x9 grid `isSolved` returns a value, and the value is `true`
exactly when every row, every column and every aligned 3x3 box (rows
`3i..3i+2`, columns `3j..3j+2`) holds each digit `'1'..'9'` exactly once. -/
theorem isSolved_iff_spec (b : SudokuGrid) (hg : Grid9 b.grid) :
    (∃ r, isSolved b = some r) ∧ (isSolved b = some true ↔ SolvedSpec b.grid) := by
  refine ⟨checkUnits_isSome _ _ (fun u hu => readCells_isSome hg hu), ?_⟩
  rw [isSolved_iff_units hg]
  constructor
  · intro h
    refine ⟨?_, ?_, ?_⟩
    · intro i hi d hd
      have := h (rowCells i) ((mem_allUnits _).2 (Or.inl ⟨i, hi, rfl⟩)) d hd
      simpa only [mem_rowCells] using this
    · intro j hj d hd
      have := h (columnCells j) ((mem_allUnits _).2 (Or.inr (Or.inl ⟨j, hj, rfl⟩))) d hd
      simpa only [mem_columnCells] using this
    · intro i hi j hj d hd
      have := h (boxCells (3 * i) (3 * j))
        ((mem_allUnits _).2 (Or.inr (Or.inr ⟨i, hi, j, hj, rfl⟩))) d hd
      simpa only [mem_boxCells] using this
  · rintro ⟨hrow, hcol, hbox⟩ u hu d hd
    rcases (mem_allUnits u).1 hu with ⟨i, hi, rfl⟩ | ⟨j, hj, rfl⟩ | ⟨i, hi, j, hj, rfl⟩
    · simpa only [mem_rowCells] using hrow i hi d hd
    · simpa only [mem_columnCells] using hcol j hj d hd
    · simpa only [mem_boxCells] using hbox i hi j hj d hd

theorem isSolved_iff_spec_witness :
    Grid9 solvedBoard.grid ∧
      ((∃ r, isSolved solvedBoard = some r) ∧
        (isSolved solvedBoard = some true ↔ SolvedSpec solvedBoard.grid)) :=
  ⟨by decide, isSolved_iff_spec solvedBoard (by decide)⟩

/-! ## Building the grid from a setup string -/

theorem collect_range {β : Type} (f : Nat → Option β) (n : Nat) (bs : List β)
    (h : collect f (List.range n) = some bs) :
    bs.length = n ∧ ∀ i, i < n → bs[i]? = f i := by
  have hmap := (collect_eq_some f _ bs).1 h
  have hlen : bs.length = n := by
    have := congrArg List.length hmap
    simp only [List.length_map, List.length_range] at this
    exact this.symm
  refine ⟨hlen, ?_⟩
  intro i hi
  have hget := congrArg (fun l => l[i]?) hmap
  simp only [List.getElem?_map, List.getElem?_range hi, Option.map_some'] at hget
  cases hb : bs[i]? with
  | none => rw [hb] at hget; cases hget
  | some x =>
    rw [hb] at hget
    simp only [Option.map_some', Option.some.injEq] at hget
    exact hget.symm

theorem strAtN_isSome {s : List Char} {i : Nat} (h : i ≤ s.length) :
    ∃ ch, strAtN s i = some ch := by
  unfold strAtN
  by_cases hlt : i < s.length
  · exact ⟨s[i], by simp [hlt]⟩
  · have : i = s.length := by omega
    exact ⟨Char.ofNat 0, by simp [this]⟩

theorem buildGrid_spec (s : List Char) (hs : 80 ≤ s.length) :
    ∃ g, buildGrid s = some g ∧ Grid9 g ∧
      ∀ r c : Nat, r < 9 → c < 9 → cellAt g (r : Int) (c : Int) = strAtN s (r * 9 + c) := by
  have hrow : ∀ r ∈ List.range GRID_LENGTH, ∃ rowStr, buildRow s (r * GRID_LENGTH) = some rowStr := by
    intro r hr
    apply collect_isSome
    intro j hj
    simp only [GRID_LENGTH, List.mem_range] at hr hj
    rw [strAt_natCast]
    exact strAtN_isSome (by simp only [GRID_LENGTH]; omega)
  obtain ⟨g, hg⟩ := collect_isSome _ _ hrow
  obtain ⟨hlen, hget⟩ := collect_range _ _ g hg
  simp only [GRID_LENGTH] at hlen hget
  have hrows : ∀ r (hr : r < 9), ∃ rowStr, g[r]? = some rowStr ∧ rowStr.length = 9 ∧
      ∀ c, c < 9 → rowStr[c]? = strAtN s (r * 9 + c) := by
    intro r hr
    obtain ⟨rowStr, hrs⟩ := hrow r (by simp only [GRID_LENGTH, List.mem_range]; exact hr)
    simp only [GRID_LENGTH] at hrs
    obtain ⟨hl, hc⟩ := collect_range _ _ rowStr hrs
    refine ⟨rowStr, by rw [hget r hr, hrs], hl, ?_⟩
    intro c hc9
    rw [hc c hc9, strAt_natCast]
  have hgrid : Grid9 g := by
    refine ⟨hlen, ?_⟩
    intro rowStr hmem
    obtain ⟨r, hr, rfl⟩ := List.mem_iff_getElem.1 hmem
    obtain ⟨rowStr, h1, h2, _⟩ := hrows r (by omega)
    rw [List.getElem?_eq_getElem hr] at h1
    cases h1
    exact h2
  refine ⟨g, hg, hgrid, ?_⟩
  intro r c hr hc
  obtain ⟨rowStr, h1, _, h3⟩ := hrows r hr
  rw [cellAt_of_grid9 hgrid hc, h1]
  exact h3 c hc

theorem strAtN_eq_getElem? {s : List Char} (hs : s.length = 81) {r c : Nat} (hr : r < 9)
    (hc : c < 9) : strAtN s (r * 9 + c) = s[r * 9 + c]? :=
  strAtN_of_lt (by omega)

/-! ## One call of `makeMove` and of `undo` -/

theorem makeMove_spec {b : SudokuGrid} (hg : Grid9 b.grid) {column : Char} {r k : Nat}
    (hr : r < 9) (hk : k < 9) (hsym : symbol column = (k : Int)) (number : Char) :
    ∃ ch, cellAt b.grid (r : Int) (k : Int) = some ch ∧
      (ch ≠ EMPTY_SPACE → makeMove b column ((r : Int) + 1) number = some (false, b)) ∧
      (ch = EMPTY_SPACE → ∃ g2, cellSet b.grid (r : Int) (k : Int) number = some g2 ∧
        makeMove b column ((r : Int) + 1) number =
          some (true, { b with grid := g2,
                               moves := b.moves ++ [moveEntry column ((r : Int) + 1) number] })) := by
  obtain ⟨ch, hch⟩ := cellAt_isSome hg hr hk
  have hy : (r : Int) + 1 - 1 = (r : Int) := by omega
  refine ⟨ch, hch, ?_, ?_⟩
  · intro hne
    simp only [makeMove, hsym, hy, hch]
    rw [if_pos hne]
  · intro heq
    obtain ⟨g2, hset, _⟩ := cellSet_of_grid9 hg hr hk number
    refine ⟨g2, hset, ?_⟩
    simp only [makeMove, hsym, hy, hch, hset]
    rw [if_neg (by simpa using heq)]

theorem undo_spec {b : SudokuGrid} (hg : Grid9 b.grid) (hs : 80 ≤ b.originalSetup.length)
    {column : Char} {r k : Nat} {number : Char}
    (hlast : b.moves.getLast? = some (moveEntry column ((r : Int) + 1) number))
    (hr : r < 9) (hk : k < 9) (hsym : symbol column = (k : Int)) :
    ∃ g1 g2, (b.moves.dropLast = [] → buildGrid b.originalSetup = some g1) ∧
      (b.moves.dropLast ≠ [] → g1 = b.grid) ∧ Grid9 g1 ∧
      cellSet g1 (r : Int) (k : Int) '.' = some g2 ∧ Grid9 g2 ∧
      cellAt g2 (r : Int) (k : Int) = some '.' ∧
      (∀ r2 c2 : Nat, (r2, c2) ≠ (r, k) →
        cellAt g2 (r2 : Int) (c2 : Int) = cellAt g1 (r2 : Int) (c2 : Int)) ∧
      undo b = some { grid := g2, moves := b.moves.dropLast,
                      originalSetup := b.originalSetup } := by
  obtain ⟨h0, ⟨two, h1, hcode⟩, _⟩ := moveEntry_decode column r hr number
  by_cases hd : b.moves.dropLast = []
  · obtain ⟨g1, hb, hg1, _⟩ := buildGrid_spec b.originalSetup hs
    obtain ⟨g2, hset, hg2, hcell, hframe⟩ := cellSet_of_grid9 hg1 hr hk '.'
    refine ⟨g1, g2, fun _ => hb, fun h => absurd hd h, hg1, hset, hg2, hcell, hframe, ?_⟩
    simp only [undo, hlast, hd, List.isEmpty_nil, if_true, resetGrid, hb, h0, h1, hsym, hcode,
      hset]
  · obtain ⟨g2, hset, hg2, hcell, hframe⟩ := cellSet_of_grid9 hg hr hk '.'
    refine ⟨b.grid, g2, fun h => absurd h hd, fun _ => rfl, hg, hset, hg2, hcell, hframe, ?_⟩
    have hne : b.moves.dropLast.isEmpty = false := by
      cases hdl : b.moves.dropLast with
      | nil => exact absurd hdl hd
      | cons _ _ => rfl
    simp only [undo, hlast, hne, h0, h1, hsym, hcode]
    simp [hset]

/-! ## The invariant of reachable boards -/

theorem construct_spec (s : List Char) (hs : s.length = 81) :
    ∃ g, construct s = some { grid := g, moves := [], originalSetup := s } ∧ Grid9 g ∧
      ∀ r c : Nat, r < 9 → c < 9 → cellAt g (r : Int) (c : Int) = s[r * 9 + c]? := by
  obtain ⟨g, hb, hg, hcell⟩ := buildGrid_spec s (by omega)
  refine ⟨g, by simp [construct, hb], hg, ?_⟩
  intro r c hr hc
  rw [hcell r c hr hc, strAtN_eq_getElem? hs hr hc]

theorem resetGrid_spec (b : SudokuGrid) (hs : b.originalSetup.length = 81) :
    ∃ g, resetGrid b = some { b with grid := g } ∧ Grid9 g ∧
      ∀ r c : Nat, r < 9 → c < 9 →
        cellAt g (r : Int) (c : Int) = b.originalSetup[r * 9 + c]? := by
  obtain ⟨g, hb, hg, hcell⟩ := buildGrid_spec b.originalSetup (by omega)
  refine ⟨g, by simp [resetGrid, hb], hg, ?_⟩
  intro r c hr hc
  rw [hcell r c hr hc, strAtN_eq_getElem? hs hr hc]

theorem inv_construct {s : List Char} (hs : s.length = 81) {b : SudokuGrid}
    (h : construct s = some b) : Inv s b := by
  obtain ⟨g, hc, hg, hcell⟩ := construct_spec s hs
  rw [hc] at h
  cases h
  exact ⟨rfl, hg, fun r c hr hc _ => hcell r c hr hc, by simp, fun _ => hcell⟩

theorem inv_resetGrid {s : List Char} (hs : s.length = 81) {b b2 : SudokuGrid}
    (hinv : Inv s b) (h : resetGrid b = some b2) : Inv s b2 := by
  obtain ⟨g, hc, hg, hcell⟩ := resetGrid_spec b (by rw [hinv.setup]; exact hs)
  rw [hc] at h
  cases h
  rw [hinv.setup] at hcell
  exact ⟨hinv.setup, hg, fun r c hr hc _ => hcell r c hr hc, hinv.entries, fun _ => hcell⟩

theorem inv_makeMove {s : List Char} {b b2 : SudokuGrid} (hinv : Inv s b)
    {column : Char} {row : Int} {number : Char} {ok : Bool}
    (hcol : column ∈ columnLetters) (h1 : 1 ≤ row) (h9 : row ≤ 9)
    (h : makeMove b column row number = some (ok, b2)) : Inv s b2 := by
  obtain ⟨k, hk, hsym⟩ := symbol_of_mem hcol
  obtain ⟨r, hr, rfl⟩ := row_of_range h1 h9
  obtain ⟨ch, hch, hf, ht⟩ := makeMove_spec hinv.grid9 hr hk hsym number
  by_cases hne : ch = EMPTY_SPACE
  · obtain ⟨g2, hset, hm⟩ := ht hne
    rw [hm] at h
    cases h
    obtain ⟨g3, hset3, hg3, _, hframe⟩ := cellSet_of_grid9 hinv.grid9 hr hk number
    rw [hset] at hset3
    cases hset3
    have hblank : s[r * 9 + k]? = some EMPTY_SPACE := by
      by_contra hcon
      have := hinv.givens r k hr hk hcon
      rw [hch, hne] at this
      exact hcon this.symm
    refine ⟨hinv.setup, hg3, ?_, ?_, ?_⟩
    · intro r2 c2 hr2 hc2 hgiven
      have hpos : (r2, c2) ≠ (r, k) := by
        intro heq
        cases heq
        exact hgiven hblank
      rw [hframe r2 c2 hpos]
      exact hinv.givens r2 c2 hr2 hc2 hgiven
    · intro e he
      rcases List.mem_append.1 he with hold | hnew
      · exact hinv.entries e hold
      · rw [List.mem_singleton] at hnew
        exact ⟨column, r, k, number, hr, hk, hsym, hnew, hblank⟩
    · intro hnil
      simp at hnil
  · rw [hf hne] at h
    cases h
    exact hinv

theorem inv_undo {s : List Char} (hs : s.length = 81) {b b2 : SudokuGrid}
    (hinv : Inv s b) (h : undo b = some b2) : Inv s b2 := by
  cases hl : b.moves.getLast? with
  | none =>
    have : undo b = some b := by simp [undo, hl]
    rw [this] at h
    cases h
    exact hinv
  | some e =>
    obtain ⟨column, r, k, number, hr, hk, hsym, rfl, hblank⟩ :=
      hinv.entries e (List.mem_of_getLast?_eq_some hl)
    have hlen : 80 ≤ b.originalSetup.length := by rw [hinv.setup]; omega
    obtain ⟨g1, g2, hnil, hcons, _, _, hg2, hcell, hframe, hu⟩ :=
      undo_spec hinv.grid9 hlen hl hr hk hsym
    rw [hu] at h
    cases h
    have hg1 : b.moves.dropLast = [] →
        ∀ r2 c2 : Nat, r2 < 9 → c2 < 9 → cellAt g1 (r2 : Int) (c2 : Int) = s[r2 * 9 + c2]? := by
      intro hd r2 c2 hr2 hc2
      obtain ⟨g, hb, _, hcells⟩ := buildGrid_spec b.originalSetup hlen
      rw [hnil hd] at hb
      cases hb
      rw [hcells r2 c2 hr2 hc2, hinv.setup, strAtN_eq_getElem? hs hr2 hc2]
    refine ⟨hinv.setup, hg2, ?_, ?_, ?_⟩
    · intro r2 c2 hr2 hc2 hgiven
      have hpos : (r2, c2) ≠ (r, k) := by
        intro heq
        cases heq
        exact hgiven hblank
      rw [hframe r2 c2 hpos]
      by_cases hd : b.moves.dropLast = []
      · exact hg1 hd r2 c2 hr2 hc2
      · rw [hcons hd]
        exact hinv.givens r2 c2 hr2 hc2 hgiven
    · intro e he
      exact hinv.entries e (List.mem_of_mem_dropLast he)
    · intro hd r2 c2 hr2 hc2
      by_cases hpos : (r2, c2) = (r, k)
      · cases hpos
        rw [hcell, hblank]
        rfl
      · rw [hframe r2 c2 hpos]
        exact hg1 hd r2 c2 hr2 hc2

theorem reachable_inv {s : List Char} (hs : s.length = 81) {b : SudokuGrid}
    (h : Reachable s b) : Inv s b := by
  induction h with
  | init hc => exact inv_construct hs hc
  | byMove _ hcol h1 h9 _ hm ih => exact inv_makeMove ih hcol h1 h9 hm
  | byUndo _ hu ih => exact inv_undo hs ih hu
  | byReset _ hr ih => exact inv_resetGrid hs ih hr

/-! ## Facts about the sample boards -/

theorem sampleStart_eq : construct samplePuzzle = some sampleStart := by decide

theorem sampleAfterMove_eq :
    makeMove sampleStart 'A' 1 '5' = some (true, sampleAfterMove) := by decide

theorem sampleStart_reachable : Reachable samplePuzzle sampleStart :=
  Reachable.init sampleStart_eq

theorem sampleAfterMove_reachable : Reachable samplePuzzle sampleAfterMove :=
  Reachable.byMove sampleStart_reachable (by decide) (by decide) (by decide) (by decide)
    sampleAfterMove_eq

/-! ## The claims -/

/-- C2: on every board reachable from `Construct(s)`, `s` of 81 characters, a
position whose character in `s` is not the blank marker still holds that
character, and `makeMove` on that position (whatever the digit) returns
`false` and leaves the whole board, so also that cell, as it was. -/
theorem given_immutable (s : List Char) (hs : s.length = 81) (b : SudokuGrid)
    (hb : Reachable s b) (r c : Nat) (hr : r < 9) (hc : c < 9)
    (hgiven : s[r * 9 + c]? ≠ some EMPTY_SPACE) :
    cellAt b.grid (r : Int) (c : Int) = s[r * 9 + c]? ∧
      ∀ (column : Char) (number : Char), symbol column = (c : Int) →
        makeMove b column ((r : Int) + 1) number = some (false, b) := by
  have hinv := reachable_inv hs hb
  have hcell := hinv.givens r c hr hc hgiven
  refine ⟨hcell, ?_⟩
  intro column number hsym
  obtain ⟨ch, hch, hf, _⟩ := makeMove_spec hinv.grid9 hr hc hsym number
  apply hf
  intro heq
  apply hgiven
  rw [← hcell, hch, heq]

theorem given_immutable_witness :
    cellAt sampleAfterMove.grid ((0 : Nat) : Int) ((2 : Nat) : Int) = samplePuzzle[0 * 9 + 2]? ∧
      ∀ (column : Char) (number : Char), symbol column = ((2 : Nat) : Int) →
        makeMove sampleAfterMove column (((0 : Nat) : Int) + 1) number
          = some (false, sampleAfterMove) :=
  given_immutable samplePuzzle (by decide) sampleAfterMove sampleAfterMove_reachable 0 2
    (by decide) (by decide) (by decide)

/-- C3, evaluated on the code: after `Construct(samplePuzzle)` and the
accepted move `A1 5`, the cell A1 is blank in the original setup and holds
the player's digit; the move `A1 6` on it returns `false` and changes
nothing. -/
theorem makeMove_rejects_player_cell :
    Reachable samplePuzzle sampleAfterMove ∧
      samplePuzzle[0 * 9 + 0]? = some EMPTY_SPACE ∧
      cellAt sampleAfterMove.grid 0 0 = some '5' ∧
      makeMove sampleAfterMove 'A' 1 '6' = some (false, sampleAfterMove) :=
  ⟨sampleAfterMove_reachable, by decide, by decide, by decide⟩

/-- C4: on a board with a 9x9 grid, for a column letter `A`-`I` and a row
1-9 whose cell is currently Empty, `makeMove` returns `true`; afterwards the
cell holds the given character, every other cell and the original setup are
unchanged, and the history is the previous history followed by one entry:
the column letter, the row digit and the decimal character code of the
placed digit. -/
theorem makeMove_on_empty (b : SudokuGrid) (hg : Grid9 b.grid) (column : Char) (row : Int)
    (number : Char) (hcol : column ∈ columnLetters) (h1 : 1 ≤ row) (h9 : row ≤ 9)
    (hempty : cellAt b.grid (row - 1) (symbol column) = some EMPTY_SPACE) :
    ∃ b2, makeMove b column row number = some (true, b2) ∧
      Grid9 b2.grid ∧
      cellAt b2.grid (row - 1) (symbol column) = some number ∧
      (∀ y x : Int, (y, x) ≠ (row - 1, symbol column) →
        cellAt b2.grid y x = cellAt b.grid y x) ∧
      b2.originalSetup = b.originalSetup ∧
      b2.moves = b.moves ++ [moveEntry column row number] ∧
      strAt (moveEntry column row number) 0 = some column ∧
      (∃ two, strAt (moveEntry column row number) 1 = some two ∧
        charCode two - charCode '0' = row) ∧
      (moveEntry column row number).drop 2 = to_string (charCode number) := by
  obtain ⟨k, hk, hsym⟩ := symbol_of_mem hcol
  obtain ⟨r, hr, rfl⟩ := row_of_range h1 h9
  have hy : (r : Int) + 1 - 1 = (r : Int) := by omega
  rw [hy, hsym] at hempty ⊢
  obtain ⟨ch, hch, _, ht⟩ := makeMove_spec hg hr hk hsym number
  rw [hempty] at hch
  cases hch
  obtain ⟨g2, hset, hm⟩ := ht rfl
  obtain ⟨g3, hset3, hg3, hcell, hframe⟩ := cellSet_of_grid9 hg hr hk number
  rw [hset] at hset3
  cases hset3
  obtain ⟨d0, ⟨two, d1, d2⟩, d3⟩ := moveEntry_decode column r hr number
  exact ⟨_, hm, hg3, hcell, frame_int hframe, rfl, rfl, d0, ⟨two, d1, by omega⟩, d3⟩

theorem makeMove_on_empty_witness :
    ∃ b2, makeMove sampleStart 'B' 4 '7' = some (true, b2) ∧
      Grid9 b2.grid ∧
      cellAt b2.grid (4 - 1) (symbol 'B') = some '7' ∧
      (∀ y x : Int, (y, x) ≠ (4 - 1, symbol 'B') →
        cellAt b2.grid y x = cellAt sampleStart.grid y x) ∧
      b2.originalSetup = sampleStart.originalSetup ∧
      b2.moves = sampleStart.moves ++ [moveEntry 'B' 4 '7'] ∧
      strAt (moveEntry 'B' 4 '7') 0 = some 'B' ∧
      (∃ two, strAt (moveEntry 'B' 4 '7') 1 = some two ∧
        charCode two - charCode '0' = 4) ∧
      (moveEntry 'B' 4 '7').drop 2 = to_string (charCode '7') :=
  makeMove_on_empty sampleStart (by decide) 'B' 4 '7' (by decide) (by decide) (by decide)
    (by decide)

/-- C5: whenever `makeMove` returns `false`, the board after the call (grid,
move history and original setup) is the board before it. -/
theorem makeMove_false_unchanged (b b2 : SudokuGrid) (column : Char) (row : Int)
    (number : Char) (h : makeMove b column row number = some (false, b2)) : b2 = b := by
  unfold makeMove at h
  simp only at h
  split at h
  · cases h
  · split at h
    · cases h
      rfl
    · split at h
      · cases h
      · cases h

theorem makeMove_false_unchanged_witness :
    makeMove sampleAfterMove 'A' 1 '6' = some (false, sampleAfterMove) ∧
      sampleAfterMove = sampleAfterMove :=
  ⟨by decide, makeMove_false_unchanged sampleAfterMove sampleAfterMove 'A' 1 '6' (by decide)⟩

/-- C6: on a board reachable from `Construct(s)` whose history is not empty,
the last entry names a column letter and a row in range, and `undo` returns
a board whose history is the previous history without its last element,
whose original setup is unchanged and in which the cell named by the removed
entry is Empty; if the remaining history is not empty, every other cell is
as before. -/
theorem undo_removes_last (s : List Char) (hs : s.length = 81) (b : SudokuGrid)
    (hb : Reachable s b) (hne : b.moves ≠ []) :
    ∃ (b2 : SudokuGrid) (column : Char) (r k : Nat) (number : Char),
      r < 9 ∧ k < 9 ∧ symbol column = (k : Int) ∧
      b.moves.getLast? = some (moveEntry column ((r : Int) + 1) number) ∧
      undo b = some b2 ∧
      b2.moves = b.moves.dropLast ∧
      b2.originalSetup = b.originalSetup ∧
      cellAt b2.grid (r : Int) (k : Int) = some EMPTY_SPACE ∧
      (b2.moves ≠ [] → ∀ y x : Int, (y, x) ≠ ((r : Int), (k : Int)) →
        cellAt b2.grid y x = cellAt b.grid y x) := by
  have hinv := reachable_inv hs hb
  cases hl : b.moves.getLast? with
  | none => exact absurd (List.getLast?_eq_none_iff.1 hl) hne
  | some e =>
    obtain ⟨column, r, k, number, hr, hk, hsym, rfl, _⟩ :=
      hinv.entries e (List.mem_of_getLast?_eq_some hl)
    have hlen : 80 ≤ b.originalSetup.length := by rw [hinv.setup]; omega
    obtain ⟨g1, g2, _, hcons, _, _, _, hcell, hframe, hu⟩ :=
      undo_spec hinv.grid9 hlen hl hr hk hsym
    refine ⟨_, column, r, k, number, hr, hk, hsym, rfl, hu, rfl, rfl, hcell, ?_⟩
    intro hrest
    have := hcons hrest
    subst this
    exact frame_int hframe

theorem undo_removes_last_witness :
    ∃ (b2 : SudokuGrid) (column : Char) (r k : Nat) (number : Char),
      r < 9 ∧ k < 9 ∧ symbol column = (k : Int) ∧
      sampleAfterMove.moves.getLast? = some (moveEntry column ((r : Int) + 1) number) ∧
      undo sampleAfterMove = some b2 ∧
      b2.moves = sampleAfterMove.moves.dropLast ∧
      b2.originalSetup = sampleAfterMove.originalSetup ∧
      cellAt b2.grid (r : Int) (k : Int) = some EMPTY_SPACE ∧
      (b2.moves ≠ [] → ∀ y x : Int, (y, x) ≠ ((r : Int), (k : Int)) →
        cellAt b2.grid y x = cellAt sampleAfterMove.grid y x) :=
  undo_removes_last samplePuzzle (by decide) sampleAfterMove sampleAfterMove_reachable
    (by decide)

/-- C7: `undo` on a board with an empty history returns the same board (grid,
history and original setup), and so does any number of `undo` calls in a
row. -/
theorem undo_empty_noop (b : SudokuGrid) (h : b.moves = []) :
    undo b = some b ∧ ∀ n, undoTimes n b = some b := by
  have hu : undo b = some b := by simp [undo, h]
  refine ⟨hu, ?_⟩
  intro n
  induction n with
  | zero => rfl
  | succ n ih => simp [undoTimes, hu, ih]

theorem undo_empty_noop_witness :
    sampleStart.moves = [] ∧
      (undo sampleStart = some sampleStart ∧ ∀ n, undoTimes n sampleStart = some sampleStart) :=
  ⟨by decide, undo_empty_noop sampleStart (by decide)⟩

/-- C8: on a board with a 9x9 grid and its 81-character original setup, for a
column letter `A`-`I` and a row 1-9 whose cell is currently Empty, `makeMove`
is accepted and the `undo` right after it returns a board in which that cell
is Empty again and the history is the one before the move (so of the same
length). -/
theorem move_then_undo (b : SudokuGrid) (hg : Grid9 b.grid)
    (hs : b.originalSetup.length = 81) (column : Char) (row : Int) (number : Char)
    (hcol : column ∈ columnLetters) (h1 : 1 ≤ row) (h9 : row ≤ 9)
    (hempty : cellAt b.grid (row - 1) (symbol column) = some EMPTY_SPACE) :
    ∃ b1 b2, makeMove b column row number = some (true, b1) ∧ undo b1 = some b2 ∧
      cellAt b2.grid (row - 1) (symbol column) = some EMPTY_SPACE ∧
      b2.moves = b.moves ∧ b2.moves.length = b.moves.length := by
  obtain ⟨k, hk, hsym⟩ := symbol_of_mem hcol
  obtain ⟨r, hr, rfl⟩ := row_of_range h1 h9
  have hy : (r : Int) + 1 - 1 = (r : Int) := by omega
  rw [hy, hsym] at hempty ⊢
  obtain ⟨ch, hch, _, ht⟩ := makeMove_spec hg hr hk hsym number
  rw [hempty] at hch
  cases hch
  obtain ⟨g2, hset, hm⟩ := ht rfl
  obtain ⟨g3, hset3, hg3, _, _⟩ := cellSet_of_grid9 hg hr hk number
  rw [hset] at hset3
  cases hset3
  have hlast : (b.moves ++ [moveEntry column ((r : Int) + 1) number]).getLast?
      = some (moveEntry column ((r : Int) + 1) number) := List.getLast?_concat _
  obtain ⟨g4, g5, _, _, _, _, _, hcell, _, hu⟩ :=
    undo_spec (b := { b with grid := g2,
                             moves := b.moves ++ [moveEntry column ((r : Int) + 1) number] })
      hg3 (by show 80 ≤ b.originalSetup.length; omega) hlast hr hk hsym
  refine ⟨_, _, hm, hu, hcell, ?_, ?_⟩ <;> simp

theorem move_then_undo_witness :
    ∃ b1 b2, makeMove sampleStart 'A' 1 '5' = some (true, b1) ∧ undo b1 = some b2 ∧
      cellAt b2.grid (1 - 1) (symbol 'A') = some EMPTY_SPACE ∧
      b2.moves = sampleStart.moves ∧ b2.moves.length = sampleStart.moves.length :=
  move_then_undo sampleStart (by decide) (by decide) 'A' 1 '5' (by decide) (by decide)
    (by decide) (by decide)

/-- C9: on every board reachable from `Construct(s)`, `s` of 81 characters,
`resetGrid` returns a board whose grid is the grid of `Construct(s)`, cell
(row, column) being `s[row*9+column]`; a second `resetGrid` right after it
returns that same board. -/
theorem resetGrid_restores (s : List Char) (hs : s.length = 81) (b : SudokuGrid)
    (hb : Reachable s b) :
    ∃ b0 b1, construct s = some b0 ∧ resetGrid b = some b1 ∧ b1.grid = b0.grid ∧
      (∀ r c : Nat, r < 9 → c < 9 → cellAt b1.grid (r : Int) (c : Int) = s[r * 9 + c]?) ∧
      resetGrid b1 = some b1 := by
  have hinv := reachable_inv hs hb
  obtain ⟨g, hb0, _, hcell⟩ := buildGrid_spec s (by omega)
  have hreset : resetGrid b = some { b with grid := g } := by
    simp [resetGrid, hinv.setup, hb0]
  refine ⟨{ grid := g, moves := [], originalSetup := s }, { b with grid := g },
    by simp [construct, hb0], hreset, rfl, ?_, ?_⟩
  · intro r c hr hc
    rw [hcell r c hr hc, strAtN_eq_getElem? hs hr hc]
  · simp [resetGrid, hinv.setup, hb0]

theorem resetGrid_restores_witness :
    ∃ b0 b1, construct samplePuzzle = some b0 ∧ resetGrid sampleAfterMove = some b1 ∧
      b1.grid = b0.grid ∧
      (∀ r c : Nat, r < 9 → c < 9 →
        cellAt b1.grid (r : Int) (c : Int) = samplePuzzle[r * 9 + c]?) ∧
      resetGrid b1 = some b1 :=
  resetGrid_restores samplePuzzle (by decide) sampleAfterMove sampleAfterMove_reachable

/-- C10: for a string `s` of 81 characters the constructor returns a board
whose grid has exactly 9 rows of exactly 9 characters with cell (row, column)
equal to `s[row*9+column]`, whose history is empty and whose original setup
is `s`. -/
theorem construct_correct (s : List Char) (hs : s.length = 81) :
    ∃ b, construct s = some b ∧ b.grid.length = 9 ∧
      (∀ rowStr ∈ b.grid, rowStr.length = 9) ∧
      (∀ r c : Nat, r < 9 → c < 9 → cellAt b.grid (r : Int) (c : Int) = s[r * 9 + c]?) ∧
      b.moves = [] ∧ b.originalSetup = s := by
  obtain ⟨g, hc, hg, hcell⟩ := construct_spec s hs
  exact ⟨_, hc, hg.1, hg.2, hcell, rfl, rfl⟩

theorem construct_correct_witness :
    ∃ b, construct samplePuzzle = some b ∧ b.grid.length = 9 ∧
      (∀ rowStr ∈ b.grid, rowStr.length = 9) ∧
      (∀ r c : Nat, r < 9 → c < 9 →
        cellAt b.grid (r : Int) (c : Int) = samplePuzzle[r * 9 + c]?) ∧
      b.moves = [] ∧ b.originalSetup = samplePuzzle :=
  construct_correct samplePuzzle (by decide)

/-! ## Further facts used by the remaining claims -/

theorem grid_ext {g g2 : List (List Char)} (hg : Grid9 g) (hg2 : Grid9 g2)
    (h : ∀ r c : Nat, r < 9 → c < 9 →
      cellAt g (r : Int) (c : Int) = cellAt g2 (r : Int) (c : Int)) : g = g2 := by
  apply List.ext_getElem (by rw [hg.1, hg2.1])
  intro r hr1 hr2
  have hr : r < 9 := by rw [hg.1] at hr1; exact hr1
  have hl1 : (g[r]).length = 9 := hg.2 _ (List.getElem_mem hr1)
  have hl2 : (g2[r]).length = 9 := hg2.2 _ (List.getElem_mem hr2)
  apply List.ext_getElem (by rw [hl1, hl2])
  intro c hc1 hc2
  have hc : c < 9 := by rw [hl1] at hc1; exact hc1
  have := h r c hr hc
  rw [cellAt_of_grid9 hg hc, cellAt_of_grid9 hg2 hc] at this
  simpa [List.getElem?_eq_getElem hr1, List.getElem?_eq_getElem hr2,
    List.getElem?_eq_getElem hc1, List.getElem?_eq_getElem hc2] using this

theorem undo_total {s : List Char} (hs : s.length = 81) {b : SudokuGrid} (hinv : Inv s b) :
    ∃ b2, undo b = some b2 := by
  cases hl : b.moves.getLast? with
  | none => exact ⟨b, by simp [undo, hl]⟩
  | some e =>
    obtain ⟨column, r, k, number, hr, hk, hsym, rfl, _⟩ :=
      hinv.entries e (List.mem_of_getLast?_eq_some hl)
    have hlen : 80 ≤ b.originalSetup.length := by rw [hinv.setup]; omega
    obtain ⟨_, _, _, _, _, _, _, _, _, hu⟩ := undo_spec hinv.grid9 hlen hl hr hk hsym
    exact ⟨_, hu⟩

theorem sampleAfterUndo_reachable : Reachable samplePuzzle sampleAfterUndo :=
  Reachable.byUndo sampleAfterMove_reachable (by decide)

theorem unit_complete_props {g : List (List Char)} {cells : List (Nat × Nat)}
    {bs : List Char} (h : readCells g cells = some bs)
    (hc : _isCompleteSetOfNumbers bs = true) :
    (∀ p ∈ cells, ∃ d ∈ digits, cellAt g (p.1 : Int) (p.2 : Int) = some d) ∧
      (∀ p ∈ cells, ∀ q ∈ cells,
        cellAt g (p.1 : Int) (p.2 : Int) = cellAt g (q.1 : Int) (q.2 : Int) → p = q) := by
  have hmap := (collect_eq_some _ cells bs).1 h
  have hp := (isComplete_iff_perm bs).1 hc
  have hnd : bs.Nodup := hp.nodup_iff.2 (by unfold digits; decide)
  have hnd2 : (List.map some bs).Nodup := hnd.map (Option.some_injective Char)
  rw [← hmap] at hnd2
  have hinj := List.inj_on_of_nodup_map hnd2
  refine ⟨?_, fun p hp1 q hq1 heq => hinj hp1 hq1 heq⟩
  intro p hpc
  have hm : cellAt g (p.1 : Int) (p.2 : Int) ∈ List.map some bs := by
    rw [← hmap]
    exact List.mem_map.2 ⟨p, hpc, rfl⟩
  obtain ⟨d, hd, hdp⟩ := List.mem_map.1 hm
  exact ⟨d, hp.mem_iff.1 hd, hdp.symm⟩

theorem isSolved_true_props {b : SudokuGrid} (h : isSolved b = some true) :
    ∀ u ∈ allUnits,
      (∀ p ∈ u, ∃ d ∈ digits, cellAt b.grid (p.1 : Int) (p.2 : Int) = some d) ∧
      (∀ p ∈ u, ∀ q ∈ u,
        cellAt b.grid (p.1 : Int) (p.2 : Int) = cellAt b.grid (q.1 : Int) (q.2 : Int) →
          p = q) := by
  intro u hu
  obtain ⟨bs, hbs, hc⟩ := (checkUnits_eq_true b.grid allUnits).1 h u hu
  exact unit_complete_props hbs hc

theorem makeMove_some_inRange {b : SudokuGrid} (hg : Grid9 b.grid) {column : Char}
    {row : Int} {number : Char} {res : Bool × SudokuGrid}
    (h : makeMove b column row number = some res) :
    column ∈ columnLetters ∧ 1 ≤ row ∧ row ≤ 9 := by
  have hc : ∃ ch, cellAt b.grid (row - 1) (symbol column) = some ch := by
    cases hcell : cellAt b.grid (row - 1) (symbol column) with
    | none => simp [makeMove, hcell] at h
    | some ch => exact ⟨ch, rfl⟩
  obtain ⟨ch, hch⟩ := hc
  have hy0 : ¬ (row - 1 < 0) := by
    intro hneg
    rw [cellAt_neg_left _ _ hneg] at hch
    cases hch
  have hx0 : ¬ (symbol column < 0) := by
    intro hneg
    rw [cellAt_neg_right _ _ hneg] at hch
    cases hch
  have hy9 : (row - 1).toNat < 9 := by
    by_contra hge
    have hnone : b.grid[(row - 1).toNat]? = none :=
      List.getElem?_eq_none (by rw [hg.1]; omega)
    unfold cellAt vecAt at hch
    rw [if_neg hy0, hnone] at hch
    cases hch
  refine ⟨?_, by omega, by omega⟩
  by_contra hnot
  simp only [columnLetters, List.mem_cons, List.mem_singleton, List.not_mem_nil, or_false,
    not_or] at hnot
  obtain ⟨n1, n2, n3, n4, n5, n6, n7, n8, n9⟩ := hnot
  apply hx0
  simp [symbol, n1, n2, n3, n4, n5, n6, n7, n8, n9]

theorem isSolved_total {b : SudokuGrid} (hg : Grid9 b.grid) : ∃ res, isSolved b = some res :=
  checkUnits_isSome _ _ (fun _ hu => readCells_isSome hg hu)

/-! ## The remaining claims -/

/-- C11: on a board reachable from `Construct(s)`, `s` of 81 characters,
`undo` returns a board, and if its history is empty its grid is the grid of
`Construct(s)`: every one of the 81 cells holds the character of `s` at its
position. -/
theorem full_undo_restores (s : List Char) (hs : s.length = 81) (b : SudokuGrid)
    (hb : Reachable s b) :
    ∃ b0 b2, construct s = some b0 ∧ undo b = some b2 ∧
      (b2.moves = [] →
        b2.grid = b0.grid ∧
        ∀ r c : Nat, r < 9 → c < 9 → cellAt b2.grid (r : Int) (c : Int) = s[r * 9 + c]?) := by
  have hinv := reachable_inv hs hb
  obtain ⟨b2, hu⟩ := undo_total hs hinv
  have hinv2 := inv_undo hs hinv hu
  obtain ⟨g, hc, hg, hcell⟩ := construct_spec s hs
  refine ⟨{ grid := g, moves := [], originalSetup := s }, b2, hc, hu, ?_⟩
  intro hm
  refine ⟨grid_ext hinv2.grid9 hg ?_, hinv2.pristine hm⟩
  intro r c hr hc9
  rw [hinv2.pristine hm r c hr hc9, hcell r c hr hc9]

theorem full_undo_restores_witness :
    ∃ b0 b2, construct samplePuzzle = some b0 ∧ undo sampleAfterMove = some b2 ∧
      (b2.moves = [] →
        b2.grid = b0.grid ∧
        ∀ r c : Nat, r < 9 → c < 9 →
          cellAt b2.grid (r : Int) (c : Int) = samplePuzzle[r * 9 + c]?) :=
  full_undo_restores samplePuzzle (by decide) sampleAfterMove sampleAfterMove_reachable

/-- C13: the board constructed from the 81-character string made of the rows
534678912, 672195348, 198342567, 859761423, 426853791, 713924856, 961537284,
287419635, 345286179 has `isSolved` equal to `true`. -/
theorem canonical_solved :
    canonicalSolved.length = 81 ∧
      ∃ b, construct canonicalSolved = some b ∧ isSolved b = some true :=
  ⟨by decide, solvedBoard, by decide, by decide⟩

/-- C14: whenever the reads of `resetGrid` are defined (an original setup of
at least 80 characters, so every 81-character setup), `resetGrid` returns a
board whose move history is the history before the call, entry for entry,
and whose original setup is unchanged. -/
theorem resetGrid_keeps_history (b : SudokuGrid) (hs : 80 ≤ b.originalSetup.length) :
    ∃ b2, resetGrid b = some b2 ∧ b2.moves = b.moves ∧
      b2.moves.length = b.moves.length ∧ b2.originalSetup = b.originalSetup := by
  obtain ⟨g, hb, _, _⟩ := buildGrid_spec b.originalSetup hs
  exact ⟨{ b with grid := g }, by simp [resetGrid, hb], rfl, rfl, rfl⟩

theorem resetGrid_keeps_history_witness :
    ∃ b2, resetGrid sampleAfterMove = some b2 ∧ b2.moves = sampleAfterMove.moves ∧
      b2.moves.length = sampleAfterMove.moves.length ∧
      b2.originalSetup = sampleAfterMove.originalSetup :=
  resetGrid_keeps_history sampleAfterMove (by decide)

/-- C15: on a board reachable from `Construct(s)`, `s` of 81 characters, every
history entry is the entry of a move with a column letter and a row in
range, its first two characters decode (as `undo` decodes them) to that
column index and row index, and `s` holds the blank marker at that
position. -/
theorem history_targets_blank (s : List Char) (hs : s.length = 81) (b : SudokuGrid)
    (hb : Reachable s b) :
    ∀ e ∈ b.moves, ∃ (column : Char) (r k : Nat) (number : Char),
      r < 9 ∧ k < 9 ∧ e = moveEntry column ((r : Int) + 1) number ∧
      symbol column = (k : Int) ∧ strAt e 0 = some column ∧
      (∃ two, strAt e 1 = some two ∧ charCode two - charCode '0' - 1 = (r : Int)) ∧
      s[r * 9 + k]? = some EMPTY_SPACE := by
  intro e he
  obtain ⟨column, r, k, number, hr, hk, hsym, rfl, hblank⟩ :=
    (reachable_inv hs hb).entries e he
  obtain ⟨d0, d1, _⟩ := moveEntry_decode column r hr number
  exact ⟨column, r, k, number, hr, hk, rfl, hsym, d0, d1, hblank⟩

theorem history_targets_blank_witness :
    ∃ (column : Char) (r k : Nat) (number : Char),
      r < 9 ∧ k < 9 ∧ moveEntry 'A' 1 '5' = moveEntry column ((r : Int) + 1) number ∧
      symbol column = (k : Int) ∧ strAt (moveEntry 'A' 1 '5') 0 = some column ∧
      (∃ two, strAt (moveEntry 'A' 1 '5') 1 = some two ∧
        charCode two - charCode '0' - 1 = (r : Int)) ∧
      samplePuzzle[r * 9 + k]? = some EMPTY_SPACE :=
  history_targets_blank samplePuzzle (by decide) sampleAfterMove sampleAfterMove_reachable
    (moveEntry 'A' 1 '5') (by decide)

/-- C16: on a board reachable from `Construct(s)`, `s` of 81 characters, an
empty move history implies that the grid is the grid of `Construct(s)`:
every one of the 81 cells holds the character of `s` at its position. -/
theorem empty_history_pristine (s : List Char) (hs : s.length = 81) (b : SudokuGrid)
    (hb : Reachable s b) (hm : b.moves = []) :
    ∃ b0, construct s = some b0 ∧ b.grid = b0.grid ∧
      ∀ r c : Nat, r < 9 → c < 9 → cellAt b.grid (r : Int) (c : Int) = s[r * 9 + c]? := by
  have hinv := reachable_inv hs hb
  obtain ⟨g, hc, hg, hcell⟩ := construct_spec s hs
  refine ⟨{ grid := g, moves := [], originalSetup := s }, hc,
    grid_ext hinv.grid9 hg ?_, hinv.pristine hm⟩
  intro r c hr hc9
  rw [hinv.pristine hm r c hr hc9, hcell r c hr hc9]

theorem empty_history_pristine_witness :
    ∃ b0, construct samplePuzzle = some b0 ∧ sampleAfterUndo.grid = b0.grid ∧
      ∀ r c : Nat, r < 9 → c < 9 →
        cellAt sampleAfterUndo.grid (r : Int) (c : Int) = samplePuzzle[r * 9 + c]? :=
  empty_history_pristine samplePuzzle (by decide) sampleAfterUndo sampleAfterUndo_reachable
    (by decide)

/-- C12: on a 9x9 grid, if some cell holds a character that is not one of
`'1'..'9'` (the Empty marker included), or two different positions of one
row, of one column or of one aligned 3x3 box hold the same character, then
`isSolved` returns `false`. -/
theorem isSolved_false_of_defect (b : SudokuGrid) (hg : Grid9 b.grid)
    (h : (∃ r c : Nat, r < 9 ∧ c < 9 ∧
            ∃ ch, cellAt b.grid (r : Int) (c : Int) = some ch ∧ ch ∉ digits) ∨
         (∃ i c1 c2 : Nat, i < 9 ∧ c1 < 9 ∧ c2 < 9 ∧ c1 ≠ c2 ∧
            cellAt b.grid (i : Int) (c1 : Int) = cellAt b.grid (i : Int) (c2 : Int)) ∨
         (∃ j r1 r2 : Nat, j < 9 ∧ r1 < 9 ∧ r2 < 9 ∧ r1 ≠ r2 ∧
            cellAt b.grid (r1 : Int) (j : Int) = cellAt b.grid (r2 : Int) (j : Int)) ∨
         (∃ i j : Nat, i < 3 ∧ j < 3 ∧ ∃ p q : Nat × Nat, p ≠ q ∧
            (3 * i ≤ p.1 ∧ p.1 < 3 * i + 3 ∧ 3 * j ≤ p.2 ∧ p.2 < 3 * j + 3) ∧
            (3 * i ≤ q.1 ∧ q.1 < 3 * i + 3 ∧ 3 * j ≤ q.2 ∧ q.2 < 3 * j + 3) ∧
            cellAt b.grid (p.1 : Int) (p.2 : Int) = cellAt b.grid (q.1 : Int) (q.2 : Int))) :
    isSolved b = some false := by
  obtain ⟨res, hres⟩ : ∃ res, isSolved b = some res :=
    checkUnits_isSome _ _ (fun u hu => readCells_isSome hg hu)
  cases res with
  | false => exact hres
  | true =>
    exfalso
    have hprops := isSolved_true_props hres
    rcases h with ⟨r, c, hr, hc, ch, hch, hnot⟩ | ⟨i, c1, c2, hi, h1, h2, hne, heq⟩ |
      ⟨j, r1, r2, hj, h1, h2, hne, heq⟩ | ⟨i, j, hi, hj, p, q, hne, hp, hq, heq⟩
    · have hu := (mem_allUnits (rowCells r)).2 (Or.inl ⟨r, hr, rfl⟩)
      obtain ⟨d, hd, hcell⟩ := (hprops _ hu).1 (r, c) ((mem_rowCells r (r, c)).2 ⟨rfl, hc⟩)
      rw [hch] at hcell
      cases hcell
      exact hnot hd
    · have hu := (mem_allUnits (rowCells i)).2 (Or.inl ⟨i, hi, rfl⟩)
      have := (hprops _ hu).2 (i, c1) ((mem_rowCells i (i, c1)).2 ⟨rfl, h1⟩)
        (i, c2) ((mem_rowCells i (i, c2)).2 ⟨rfl, h2⟩) heq
      exact hne (Prod.mk.inj this).2
    · have hu := (mem_allUnits (columnCells j)).2 (Or.inr (Or.inl ⟨j, hj, rfl⟩))
      have := (hprops _ hu).2 (r1, j) ((mem_columnCells j (r1, j)).2 ⟨h1, rfl⟩)
        (r2, j) ((mem_columnCells j (r2, j)).2 ⟨h2, rfl⟩) heq
      exact hne (Prod.mk.inj this).1
    · have hu := (mem_allUnits (boxCells (3 * i) (3 * j))).2
        (Or.inr (Or.inr ⟨i, hi, j, hj, rfl⟩))
      exact hne ((hprops _ hu).2 p ((mem_boxCells _ _ p).2 hp) q ((mem_boxCells _ _ q).2 hq) heq)

theorem isSolved_false_of_defect_witness :
    Grid9 sampleStart.grid ∧ isSolved sampleStart = some false :=
  ⟨by decide,
    isSolved_false_of_defect sampleStart (by decide)
      (Or.inl ⟨0, 0, by decide, by decide, '.', by decide, by decide⟩)⟩

/-- C19, evaluated on the code: for a puzzle file of one line the value 1 is
among the values `random_number` can take and `puzzleFile[1]` is outside the
list; for a puzzle file of any number `n` of lines the value `n` can be
drawn and `puzzleFile[n]` is outside the list. -/
theorem selection_index_out_of_range :
    ((1 : Int) ∈ drawableIndices [samplePuzzle] ∧ selectPuzzle [samplePuzzle] 1 = none) ∧
      ∀ puzzleFile : List (List Char),
        (puzzleFile.length : Int) ∈ drawableIndices puzzleFile ∧
          selectPuzzle puzzleFile (puzzleFile.length : Int) = none := by
  refine ⟨⟨by decide, by decide⟩, ?_⟩
  intro puzzleFile
  constructor
  · have h0 : ((puzzleFile.length : Int) - 0 + 1).toNat = puzzleFile.length + 1 := by
      have : (puzzleFile.length : Int) - 0 + 1 = ((puzzleFile.length + 1 : Nat) : Int) := by
        push_cast
        ring
      rw [this, Int.toNat_ofNat]
    unfold drawableIndices uniformIntValues
    rw [h0]
    have hm : puzzleFile.length ∈ List.range (puzzleFile.length + 1) :=
      List.mem_range.2 (Nat.lt_succ_self _)
    have himg := List.mem_map_of_mem (fun i : Nat => (0 : Int) + (i : Int)) hm
    have hval : (fun i : Nat => (0 : Int) + (i : Int)) puzzleFile.length
        = (puzzleFile.length : Int) := Int.zero_add _
    rw [hval] at himg
    exact himg
  · simp [selectPuzzle, vecAt_natCast]

/-- C17: on a board reachable from `Construct(s)`, `s` of 81 characters,
whenever a `makeMove` call returns `true`, the `undo` right after it returns
the board before the move: same grid, same move history, same original
setup. -/
theorem successful_move_undo_identity (s : List Char) (hs : s.length = 81)
    (b b1 : SudokuGrid) (hb : Reachable s b) (column : Char) (row : Int) (number : Char)
    (hm : makeMove b column row number = some (true, b1)) : undo b1 = some b := by
  have hinv := reachable_inv hs hb
  obtain ⟨hcol, h1, h9⟩ := makeMove_some_inRange hinv.grid9 hm
  obtain ⟨k, hk, hsym⟩ := symbol_of_mem hcol
  obtain ⟨r, hr, rfl⟩ := row_of_range h1 h9
  obtain ⟨ch, hch, hf, ht⟩ := makeMove_spec hinv.grid9 hr hk hsym number
  by_cases hne : ch = EMPTY_SPACE
  · obtain ⟨g2, hset, hm2⟩ := ht hne
    rw [hm2] at hm
    cases hm
    obtain ⟨g3, hset3, hg3, _, hframe3⟩ := cellSet_of_grid9 hinv.grid9 hr hk number
    rw [hset] at hset3
    cases hset3
    have hlast : (b.moves ++ [moveEntry column ((r : Int) + 1) number]).getLast?
        = some (moveEntry column ((r : Int) + 1) number) := List.getLast?_concat _
    have hlen : 80 ≤ b.originalSetup.length := by rw [hinv.setup]; omega
    obtain ⟨g4, g5, hnil, hcons, _, _, hg5, hcell, hframe, hu⟩ :=
      undo_spec (b := { b with grid := g2,
                               moves := b.moves ++ [moveEntry column ((r : Int) + 1) number] })
        hg3 hlen hlast hr hk hsym
    simp only [List.dropLast_concat] at hnil hcons hu
    have hgrid : g5 = b.grid := by
      apply grid_ext hg5 hinv.grid9
      intro r2 c2 hr2 hc2
      by_cases hpos : (r2, c2) = (r, k)
      · cases hpos
        rw [hcell, hch, hne]
        rfl
      · rw [hframe r2 c2 hpos]
        by_cases hd : b.moves = []
        · obtain ⟨g, hbg, _, hcells⟩ := buildGrid_spec b.originalSetup hlen
          rw [hnil hd] at hbg
          cases hbg
          rw [hcells r2 c2 hr2 hc2, hinv.setup, strAtN_eq_getElem? hs hr2 hc2,
            hinv.pristine hd r2 c2 hr2 hc2]
        · rw [hcons hd]
          exact hframe3 r2 c2 hpos
    rw [hu, hgrid]
  · rw [hf hne] at hm
    cases hm

theorem successful_move_undo_identity_witness :
    makeMove sampleStart 'A' 1 '5' = some (true, sampleAfterMove) ∧
      undo sampleAfterMove = some sampleStart :=
  ⟨by decide,
    successful_move_undo_identity samplePuzzle (by decide) sampleStart sampleAfterMove
      sampleStart_reachable 'A' 1 '5' (by decide)⟩

/-- C18: on a board reachable from `Construct(s)`, `s` of 81 characters, the
grid has exactly 9 rows of exactly 9 characters; every history entry is the
entry of a move whose indices in `makeMove` were `x = symbol(column)` and
`y = row - 1`, and `undo` decodes its first two characters to the same two
indices, both in 0..8; `makeMove` with a column letter `A`-`I` and a row 1-9
computes indices in 0..8; every cell position `isSolved` reads has both
indices in 0..8; and `makeMove`, `undo`, `resetGrid` and `isSolved` all
return, that is, none of them performs an out-of-range access. -/
theorem no_out_of_range_access (s : List Char) (hs : s.length = 81) (b : SudokuGrid)
    (hb : Reachable s b) :
    (b.grid.length = 9 ∧ ∀ rowStr ∈ b.grid, rowStr.length = 9) ∧
    (∀ e ∈ b.moves, ∃ (column : Char) (row : Int) (number : Char) (one two : Char)
        (x y : Nat),
      e = moveEntry column row number ∧
      symbol column = (x : Int) ∧ row - 1 = (y : Int) ∧
      strAt e 0 = some one ∧ strAt e 1 = some two ∧
      symbol one = (x : Int) ∧ charCode two - charCode '0' - 1 = (y : Int) ∧
      x < 9 ∧ y < 9) ∧
    (∀ (column : Char) (row : Int) (number : Char),
      column ∈ columnLetters → 1 ≤ row → row ≤ 9 →
        (0 ≤ symbol column ∧ symbol column < 9 ∧ 0 ≤ row - 1 ∧ row - 1 < 9) ∧
        ∃ res, makeMove b column row number = some res) ∧
    (∃ b2, undo b = some b2) ∧
    (b.originalSetup.length = 81 ∧ ∃ b2, resetGrid b = some b2) ∧
    ((∀ u ∈ allUnits, ∀ p ∈ u, p.1 < 9 ∧ p.2 < 9) ∧ ∃ res, isSolved b = some res) := by
  have hinv := reachable_inv hs hb
  have hlen : b.originalSetup.length = 81 := by rw [hinv.setup]; exact hs
  refine ⟨hinv.grid9, ?_, ?_, undo_total hs hinv, ⟨hlen, ?_⟩,
    ⟨fun u hu => (allUnits_wellFormed u hu).2.2, isSolved_total hinv.grid9⟩⟩
  · intro e he
    obtain ⟨column, r, k, number, hr, hk, hsym, rfl, _⟩ := hinv.entries e he
    obtain ⟨d0, ⟨two, d1, d2⟩, _⟩ := moveEntry_decode column r hr number
    exact ⟨column, (r : Int) + 1, number, column, two, k, r, rfl, hsym, by omega, d0, d1,
      hsym, d2, hk, hr⟩
  · intro column row number hcol h1 h9
    obtain ⟨k, hk, hsym⟩ := symbol_of_mem hcol
    obtain ⟨r, hr, rfl⟩ := row_of_range h1 h9
    refine ⟨⟨by omega, by omega, by omega, by omega⟩, ?_⟩
    obtain ⟨ch, _, hf, ht⟩ := makeMove_spec hinv.grid9 hr hk hsym number
    by_cases hne : ch = EMPTY_SPACE
    · obtain ⟨g2, _, hm2⟩ := ht hne
      exact ⟨_, hm2⟩
    · exact ⟨_, hf hne⟩
  · obtain ⟨g, hr, _, _⟩ := resetGrid_spec b hlen
    exact ⟨_, hr⟩

theorem no_out_of_range_access_witness :
    (sampleAfterMove.grid.length = 9 ∧ ∀ rowStr ∈ sampleAfterMove.grid, rowStr.length = 9) ∧
    (∀ e ∈ sampleAfterMove.moves, ∃ (column : Char) (row : Int) (number : Char)
        (one two : Char) (x y : Nat),
      e = moveEntry column row number ∧
      symbol column = (x : Int) ∧ row - 1 = (y : Int) ∧
      strAt e 0 = some one ∧ strAt e 1 = some two ∧
      symbol one = (x : Int) ∧ charCode two - charCode '0' - 1 = (y : Int) ∧
      x < 9 ∧ y < 9) ∧
    (∀ (column : Char) (row : Int) (number : Char),
      column ∈ columnLetters → 1 ≤ row → row ≤ 9 →
        (0 ≤ symbol column ∧ symbol column < 9 ∧ 0 ≤ row - 1 ∧ row - 1 < 9) ∧
        ∃ res, makeMove sampleAfterMove column row number = some res) ∧
    (∃ b2, undo sampleAfterMove = some b2) ∧
    (sampleAfterMove.originalSetup.length = 81 ∧ ∃ b2, resetGrid sampleAfterMove = some b2) ∧
    ((∀ u ∈ allUnits, ∀ p ∈ u, p.1 < 9 ∧ p.2 < 9) ∧
      ∃ res, isSolved sampleAfterMove = some res) :=
  no_out_of_range_access samplePuzzle (by decide) sampleAfterMove sampleAfterMove_reachable

end SudokuPuzzle
